import Mathlib

/-!
Verification of the class-council organizer (`organizer.py` / `app.py`).

The development shallowly embeds the Python source: dataframes become a
structure of named columns plus rows (a row is a function from column name
to cell text), Python `set` becomes `Finset`, dictionaries whose keys are
always present at the use sites become total functions, and the dictionary
built by `letters_conflict_graph` keeps an explicit key list alongside its
lookup function.  Loops with early exit (`break` at the first conflicting
year, `return False` at the first bad pair) are embedded with the
short-circuiting `List.find?` / `List.all`.
-/

namespace Organizer

/-- Python's `str.strip()` on the character list of a string: drop
whitespace from both ends. -/
def trimChars (l : List Char) : List Char :=
  ((l.dropWhile Char.isWhitespace).reverse.dropWhile Char.isWhitespace).reverse

/-- Python's `str.strip()`. -/
def pyStrip (s : String) : String :=
  String.mk (trimChars s.toList)

/-- Python's `str.lower()`. -/
def pyLower (s : String) : String :=
  String.mk (s.toList.map Char.toLower)

/-- Embedding of `parse_class`: the Python code strips the column name and
then requires a full match of the regex `([1-5])([A-Z])`, returning the
year as an integer and the letter. -/
def parse_class (col : String) : Option (Nat × Char) :=
  match (pyStrip col).toList with
  | [d, l] =>
      if '1' ≤ d ∧ d ≤ '5' ∧ 'A' ≤ l ∧ l ≤ 'Z' then
        some (d.toNat - '0'.toNat, l)
      else none
  | _ => none

/-- A parsed tabular dataset: the column names, and the rows, each row
giving the cell text of every column (missing cells are empty text). -/
structure DataFrame where
  columns : List String
  rows : List (String → String)

/-- The fatal errors the application can signal. -/
inductive AppError where
  | missingColumn
  | noCompleteLetters
deriving DecidableEq

/-- The case-insensitive, whitespace-trimmed test `load_df` applies when
looking for the teacher column: `str(c).strip().lower() == "docente"`. -/
def stripLowerIsDocente (c : String) : Bool :=
  pyLower (pyStrip c) == "docente"

/-- The normalisation loop of `load_df`: if no column is exactly
`"Docente"`, the first column whose stripped, lowercased name is
`"docente"` is renamed to `"Docente"` (a row of the renamed frame answers
the new name with the old column's cell). -/
def renameDocente (df : DataFrame) : DataFrame :=
  if "Docente" ∈ df.columns then df
  else
    match df.columns.find? stripLowerIsDocente with
    | some c0 =>
        ⟨df.columns.map (fun c => if c = c0 then "Docente" else c),
         df.rows.map (fun r => fun name => if name = "Docente" then r c0 else r name)⟩
    | none => df

/-- Embedding of `load_df` (minus the CSV parsing, which is external I/O):
normalise the teacher column's name, fail if it is still absent, then
strip the values of the `"Docente"` column. -/
def load_df (df : DataFrame) : Except AppError DataFrame :=
  if "Docente" ∈ (renameDocente df).columns then
    Except.ok ⟨(renameDocente df).columns,
      (renameDocente df).rows.map
        (fun r => fun name => if name = "Docente" then pyStrip (r name) else r name)⟩
  else
    Except.error AppError.missingColumn

/-- Whether the load step succeeded. -/
def isOkB : Except AppError DataFrame → Bool
  | Except.ok _ => true
  | Except.error _ => false

/-- `class_cols` of `build_class_teacher_map`: every column except `Docente`. -/
def class_cols (df : DataFrame) : List String :=
  df.columns.filter (fun c => c ≠ "Docente")

/-- `valid_cols` of `build_class_teacher_map`: the class columns whose name
parses as a class label. -/
def valid_cols (df : DataFrame) : List String :=
  (class_cols df).filter (fun c => (parse_class c).isSome)

/-- `class_to_teachers` of `build_class_teacher_map`: for a column, the set
of stripped teacher names of the rows whose cell in that column is
non-empty after stripping. -/
def class_to_teachers (df : DataFrame) (c : String) : Finset String :=
  ((df.rows.filter (fun r => pyStrip (r c) ≠ "")).map (fun r => pyStrip (r "Docente"))).toFinset

/-- The dictionary comprehension `{parse_class(c): c for c in valid_cols}`,
as a fold over the given column list: a later column overwrites an earlier
one with the same parsed key. -/
def yl2c (cols : List String) : Nat × Char → Option String :=
  cols.foldl
    (fun m c =>
      match parse_class c with
      | some yl => Function.update m yl (some c)
      | none => m)
    (fun _ => none)

/-- `year_letter_to_class` of `build_class_teacher_map`. -/
def year_letter_to_class (df : DataFrame) : Nat × Char → Option String :=
  yl2c (valid_cols df)

/-- `sorted({ltr for (_, ltr) in year_letter_to_class.keys()})`, computed
from the column list that generated the keys: the distinct letters in
ascending order. -/
def lettersOf (cols : List String) : List Char :=
  ((cols.filterMap (fun c => (parse_class c).map Prod.snd)).dedup).insertionSort (· ≤ ·)

/-- The completeness test of `build_class_teacher_map`: all five years are
keys for the letter. -/
def isComplete (cols : List String) (ltr : Char) : Bool :=
  (List.range' 1 5).all (fun y => (yl2c cols (y, ltr)).isSome)

/-- `complete_letters` of `build_class_teacher_map`, as a function of the
valid column list. -/
def completeOf (cols : List String) : List Char :=
  (lettersOf cols).filter (isComplete cols)

/-- `complete_letters` of `build_class_teacher_map` for a dataframe. -/
def complete_letters (df : DataFrame) : List Char :=
  completeOf (valid_cols df)

/-- The truthiness test `class_to_teachers[c1] & class_to_teachers[c2]` for
one year: the teacher sets of the two letters' classes of that year
intersect. -/
def yearHit (c2t : String → Finset String) (y2c : Nat → Char → String)
    (L1 L2 : Char) (y : Nat) : Bool :=
  decide ((c2t (y2c y L1) ∩ c2t (y2c y L2)).Nonempty)

/-- The inner loop of `letters_conflict_graph`: scan years 1..5 in order
and stop at the first year whose teacher sets intersect (`break`). -/
def findConflictYear (c2t : String → Finset String) (y2c : Nat → Char → String)
    (L1 L2 : Char) : Option Nat :=
  (List.range' 1 5).find? (yearHit c2t y2c L1 L2)

/-- The ordered pairs `(letters[i], letters[j])` with `i < j`, exactly the
pairs enumerated by `for i, L1 in enumerate(letters): for L2 in letters[i+1:]`
(and by `itertools.combinations`). -/
def allPairs {α : Type} : List α → List (α × α)
  | [] => []
  | x :: xs => (xs.map (fun y => (x, y))) ++ allPairs xs

/-- The Python dictionary `conflicts`: its key list and its lookup. -/
structure ConflictGraph where
  keys : List Char
  get : Char → Finset Char

/-- The two `add` calls: `conflicts[L1].add(L2); conflicts[L2].add(L1)`. -/
def addConflict (m : Char → Finset Char) (L1 L2 : Char) : Char → Finset Char :=
  fun L =>
    if L = L1 then insert L2 (m L)
    else if L = L2 then insert L1 (m L)
    else m L

/-- Processing of one unordered pair in `letters_conflict_graph`. -/
def pairStep (c2t : String → Finset String) (y2c : Nat → Char → String)
    (m : Char → Finset Char) (p : Char × Char) : Char → Finset Char :=
  if (findConflictYear c2t y2c p.1 p.2).isSome then addConflict m p.1 p.2 else m

/-- Embedding of `letters_conflict_graph`: start from the dictionary that
maps every letter to the empty set, then process each ordered pair.  The
year/letter dictionary is passed as a total function since the pipeline
only looks up complete letters, for which every year is a key. -/
def letters_conflict_graph (letters : List Char) (c2t : String → Finset String)
    (y2c : Nat → Char → String) : ConflictGraph :=
  ⟨letters, (allPairs letters).foldl (pairStep c2t y2c) (fun _ => ∅)⟩

/-- The sort comparison of `greedy_group_letters`:
`sorted(letters, key=lambda L: len(conflicts[L]), reverse=True)` is the
stable descending sort by conflict count, i.e. the stable sort under this
relation. -/
def degGE (conflicts : Char → Finset Char) : Char → Char → Prop :=
  fun a b => (conflicts b).card ≤ (conflicts a).card

instance (conflicts : Char → Finset Char) : DecidableRel (degGE conflicts) :=
  fun a b => inferInstanceAs (Decidable ((conflicts b).card ≤ (conflicts a).card))

/-- The processing order of `greedy_group_letters`; Python's `sorted` is a
stable sort, embedded here as the (stable) insertion sort. -/
def lettersSorted (letters : List Char) (conflicts : Char → Finset Char) : List Char :=
  letters.insertionSort (degGE conflicts)

/-- The group admission test: fewer than `max_group_size` members and no
member conflicting with the letter. -/
def canJoin (conflicts : Char → Finset Char) (L : Char) (g : List Char) (m : Nat) : Bool :=
  decide (g.length < m) && g.all (fun other => decide (L ∉ conflicts other))

/-- One placement step: append the letter to the first group it can join,
or append a fresh singleton group at the end. -/
def place (conflicts : Char → Finset Char) (m : Nat) (L : Char) :
    List (List Char) → List (List Char)
  | [] => [[L]]
  | g :: gs =>
      if canJoin conflicts L g m then (g ++ [L]) :: gs
      else g :: place conflicts m L gs

/-- Embedding of `greedy_group_letters`. -/
def greedy_group_letters (letters : List Char) (conflicts : Char → Finset Char)
    (m : Nat) : List (List Char) :=
  (lettersSorted letters conflicts).foldl (fun gs L => place conflicts m L gs) []

/-- Embedding of `build_tables`: each group, numbered from 1, becomes a
grid sending a year and a letter to `year_letter_to_class.get((y, L), "")`. -/
def build_tables (groups : List (List Char)) (y2c : Nat × Char → Option String) :
    List (Nat × List Char × (Nat → Char → String)) :=
  groups.enum.map (fun p => (p.1 + 1, p.2, fun y L => (y2c (y, L)).getD ""))

/-- `row_ok` of `validate_rows`: drop the empty labels, then no pair (in
`itertools.combinations` order) may have intersecting teacher sets; the
Python loop returns `False` at the first bad pair, which `List.all`'s
short-circuit mirrors. -/
def row_ok (c2t : String → Finset String) (class_names : List String) : Bool :=
  (allPairs (class_names.filter (fun c => c ≠ ""))).all
    (fun p => decide (c2t p.1 ∩ c2t p.2 = ∅))

/-- Embedding of `validate_rows`: one record per table and year, carrying
the verdict of `row_ok` on that row's labels. -/
def validate_rows (tables : List (Nat × List Char × (Nat → Char → String)))
    (c2t : String → Finset String) : List (Nat × Nat × Bool) :=
  tables.flatMap
    (fun t => (List.range' 1 5).map (fun y => (t.1, y, row_ok c2t (t.2.1.map (t.2.2 y)))))

/-- The post-load pipeline of `app.py`: build the registry, stop with the
no-complete-letters error when no letter is complete (`st.error` followed
by `st.stop()`), otherwise build the conflict graph, groups, tables and
the validation records. -/
def processLoaded (df : DataFrame) :
    Except AppError (List (Nat × List Char × (Nat → Char → String)) × List (Nat × Nat × Bool)) :=
  if complete_letters df = [] then Except.error AppError.noCompleteLetters
  else
    let conflicts := letters_conflict_graph (complete_letters df) (class_to_teachers df)
      (fun y L => (year_letter_to_class df (y, L)).getD "")
    let groups := greedy_group_letters (complete_letters df) conflicts.get 4
    let tables := build_tables groups (year_letter_to_class df)
    Except.ok (tables, validate_rows tables (class_to_teachers df))

/-- The whole pipeline of `app.py`, from the parsed dataframe. -/
def runPipeline (df0 : DataFrame) :
    Except AppError (List (Nat × List Char × (Nat → Char → String)) × List (Nat × Nat × Bool)) :=
  (load_df df0).bind processLoaded

end Organizer

/-! ### Lemmas about the conflict graph fold -/

namespace Organizer

theorem addConflict_mem (m : Char → Finset Char) (L1 L2 L M : Char) :
    M ∈ addConflict m L1 L2 L ↔ M ∈ m L ∨ (L1 = L ∧ L2 = M) ∨ (L2 = L ∧ L1 = M) := by
  show M ∈ (if L = L1 then insert L2 (m L) else if L = L2 then insert L1 (m L) else m L) ↔ _
  split_ifs with h1 h2
  · subst h1
    rw [Finset.mem_insert]
    constructor
    · rintro (rfl | hm)
      · exact Or.inr (Or.inl ⟨rfl, rfl⟩)
      · exact Or.inl hm
    · rintro (hm | ⟨-, rfl⟩ | ⟨rfl, rfl⟩)
      · exact Or.inr hm
      · exact Or.inl rfl
      · exact Or.inl rfl
  · subst h2
    rw [Finset.mem_insert]
    constructor
    · rintro (rfl | hm)
      · exact Or.inr (Or.inr ⟨rfl, rfl⟩)
      · exact Or.inl hm
    · rintro (hm | ⟨h1', -⟩ | ⟨-, rfl⟩)
      · exact Or.inr hm
      · exact absurd h1'.symm h1
      · exact Or.inl rfl
  · constructor
    · exact fun hm => Or.inl hm
    · rintro (hm | ⟨hL1, -⟩ | ⟨hL2, -⟩)
      · exact hm
      · exact absurd hL1.symm h1
      · exact absurd hL2.symm h2

theorem pairStep_mem (c2t : String → Finset String) (y2c : Nat → Char → String)
    (m : Char → Finset Char) (p : Char × Char) (L M : Char) :
    M ∈ pairStep c2t y2c m p L ↔
      M ∈ m L ∨ ((findConflictYear c2t y2c p.1 p.2).isSome ∧
        ((p.1 = L ∧ p.2 = M) ∨ (p.2 = L ∧ p.1 = M))) := by
  unfold pairStep
  by_cases h : (findConflictYear c2t y2c p.1 p.2).isSome
  · rw [if_pos h, addConflict_mem]
    simp only [h, true_and]
  · rw [if_neg h]
    simp [h]

theorem foldl_pairStep_mem (c2t : String → Finset String) (y2c : Nat → Char → String)
    (ps : List (Char × Char)) (m0 : Char → Finset Char) (L M : Char) :
    M ∈ (ps.foldl (pairStep c2t y2c) m0) L ↔
      M ∈ m0 L ∨ ∃ p ∈ ps, (findConflictYear c2t y2c p.1 p.2).isSome ∧
        ((p.1 = L ∧ p.2 = M) ∨ (p.2 = L ∧ p.1 = M)) := by
  induction ps generalizing m0 with
  | nil => simp
  | cons q ps ih =>
    rw [List.foldl_cons, ih, pairStep_mem]
    simp only [List.mem_cons, exists_eq_or_imp]
    exact or_assoc

theorem graph_get_mem (letters : List Char) (c2t : String → Finset String)
    (y2c : Nat → Char → String) (L M : Char) :
    M ∈ (letters_conflict_graph letters c2t y2c).get L ↔
      ∃ p ∈ allPairs letters, (findConflictYear c2t y2c p.1 p.2).isSome ∧
        ((p.1 = L ∧ p.2 = M) ∨ (p.2 = L ∧ p.1 = M)) := by
  unfold letters_conflict_graph
  rw [foldl_pairStep_mem]
  simp

theorem allPairs_ne {α : Type} (l : List α) (hnd : l.Nodup) : ∀ p ∈ allPairs l, p.1 ≠ p.2 := by
  induction l with
  | nil => intro p hp; cases hp
  | cons x xs ih =>
    intro p hp
    rcases List.mem_append.mp hp with h | h
    · rcases List.mem_map.mp h with ⟨y, hy, rfl⟩
      intro hxy
      have : x = y := hxy
      exact (List.nodup_cons.mp hnd).1 (this ▸ hy)
    · exact ih (List.nodup_cons.mp hnd).2 p h

theorem allPairs_mem_of {α : Type} (l : List α) (hnd : l.Nodup) {a b : α}
    (ha : a ∈ l) (hb : b ∈ l) (hne : a ≠ b) :
    (a, b) ∈ allPairs l ∨ (b, a) ∈ allPairs l := by
  induction l with
  | nil => cases ha
  | cons x xs ih =>
    rcases List.mem_cons.mp ha with rfl | ha'
    · left
      apply List.mem_append_left
      have hb' : b ∈ xs := by
        rcases List.mem_cons.mp hb with rfl | hb'
        · exact absurd rfl hne
        · exact hb'
      exact List.mem_map_of_mem (fun y => (a, y)) hb'
    · rcases List.mem_cons.mp hb with rfl | hb'
      · right
        apply List.mem_append_left
        exact List.mem_map_of_mem (fun y => (b, y)) ha'
      · rcases ih (List.nodup_cons.mp hnd).2 ha' hb' with h | h
        · exact Or.inl (List.mem_append_right _ h)
        · exact Or.inr (List.mem_append_right _ h)

theorem yearHit_comm (c2t : String → Finset String) (y2c : Nat → Char → String)
    (L1 L2 : Char) (y : Nat) : yearHit c2t y2c L1 L2 y = yearHit c2t y2c L2 L1 y := by
  simp [yearHit, Finset.inter_comm]

theorem findConflictYear_comm (c2t : String → Finset String) (y2c : Nat → Char → String)
    (L1 L2 : Char) : findConflictYear c2t y2c L1 L2 = findConflictYear c2t y2c L2 L1 := by
  unfold findConflictYear
  congr 1
  funext y
  exact yearHit_comm c2t y2c L1 L2 y

theorem findConflictYear_isSome_iff (c2t : String → Finset String)
    (y2c : Nat → Char → String) (L1 L2 : Char) :
    (findConflictYear c2t y2c L1 L2).isSome ↔
      ∃ y, 1 ≤ y ∧ y ≤ 5 ∧ (c2t (y2c y L1) ∩ c2t (y2c y L2)).Nonempty := by
  unfold findConflictYear
  rw [List.find?_isSome]
  constructor
  · rintro ⟨y, hy, hhit⟩
    obtain ⟨i, hi, rfl⟩ := List.mem_range'.mp hy
    refine ⟨1 + 1 * i, by omega, by omega, ?_⟩
    exact of_decide_eq_true hhit
  · rintro ⟨y, h1, h5, hne⟩
    refine ⟨y, List.mem_range'.mpr ⟨y - 1, by omega, by omega⟩, ?_⟩
    exact decide_eq_true hne

end Organizer

namespace Organizer

/-- C5: the conflict mapping is symmetric, and every input letter is a key
of the mapping (so a conflict-free letter maps to the empty set rather
than being absent). -/
theorem conflict_graph_symm_and_total (letters : List Char) (c2t : String → Finset String)
    (y2c : Nat → Char → String) :
    (∀ L1 L2 : Char, L2 ∈ (letters_conflict_graph letters c2t y2c).get L1 ↔
        L1 ∈ (letters_conflict_graph letters c2t y2c).get L2)
    ∧ (∀ L ∈ letters, L ∈ (letters_conflict_graph letters c2t y2c).keys)
    ∧ (letters_conflict_graph letters c2t y2c).keys = letters := by
  refine ⟨?_, ?_, ?_⟩
  · intro L1 L2
    rw [graph_get_mem, graph_get_mem]
    constructor <;>
      · rintro ⟨p, hp, hhit, (⟨e1, e2⟩ | ⟨e1, e2⟩)⟩
        · exact ⟨p, hp, hhit, Or.inr ⟨e2, e1⟩⟩
        · exact ⟨p, hp, hhit, Or.inl ⟨e2, e1⟩⟩
  · intro L hL
    exact hL
  · rfl

/-- C10: the conflict relation is irreflexive: for a duplicate-free letter
list (as the pipeline's complete-letter list always is), no letter
conflicts with itself, because only pairs of distinct letters are tested. -/
theorem conflict_graph_irrefl (letters : List Char) (c2t : String → Finset String)
    (y2c : Nat → Char → String) (hnd : letters.Nodup) :
    ∀ L, L ∉ (letters_conflict_graph letters c2t y2c).get L := by
  intro L hL
  rw [graph_get_mem] at hL
  obtain ⟨p, hp, -, hor⟩ := hL
  have hne := allPairs_ne letters hnd p hp
  rcases hor with ⟨e1, e2⟩ | ⟨e1, e2⟩
  · exact hne (e1.trans e2.symm)
  · exact hne (e2.trans e1.symm)

/-- C1: for distinct letters of the (duplicate-free) letter list, the
conflict relation holds iff some year in 1..5 has intersecting teacher
sets, and the short-circuiting year scan decides exactly that condition. -/
theorem conflict_iff_some_year_overlap (letters : List Char) (c2t : String → Finset String)
    (y2c : Nat → Char → String) (L1 L2 : Char) (hnd : letters.Nodup)
    (h1 : L1 ∈ letters) (h2 : L2 ∈ letters) (hne : L1 ≠ L2) :
    (L2 ∈ (letters_conflict_graph letters c2t y2c).get L1 ↔
      ∃ y, 1 ≤ y ∧ y ≤ 5 ∧ (c2t (y2c y L1) ∩ c2t (y2c y L2)).Nonempty)
    ∧ ((findConflictYear c2t y2c L1 L2).isSome ↔
      ∃ y, 1 ≤ y ∧ y ≤ 5 ∧ (c2t (y2c y L1) ∩ c2t (y2c y L2)).Nonempty) := by
  have hiff := findConflictYear_isSome_iff c2t y2c L1 L2
  refine ⟨?_, hiff⟩
  rw [graph_get_mem]
  constructor
  · rintro ⟨p, hp, hhit, (⟨e1, e2⟩ | ⟨e1, e2⟩)⟩
    · rw [e1, e2] at hhit
      exact hiff.mp hhit
    · rw [e2, e1] at hhit
      rw [findConflictYear_comm c2t y2c L2 L1] at hhit
      exact hiff.mp hhit
  · intro hex
    rcases allPairs_mem_of letters hnd h1 h2 hne with h | h
    · exact ⟨(L1, L2), h, hiff.mpr hex, Or.inl ⟨rfl, rfl⟩⟩
    · refine ⟨(L2, L1), h, ?_, Or.inr ⟨rfl, rfl⟩⟩
      rw [findConflictYear_comm c2t y2c L2 L1]
      exact hiff.mpr hex

/-- Teacher sets of a small concrete timetable, used by the witness
instances: the year-3 classes of letters A and B share one teacher. -/
def exC2t : String → Finset String :=
  fun c => if c = "3A" ∨ c = "3B" then {"rossi"} else ∅

/-- The class label of a year and letter in the concrete witness data. -/
def exY2c : Nat → Char → String :=
  fun y L => String.mk [Char.ofNat (48 + y), L]

/-- Witness for C1 at the concrete letters A and B. -/
theorem conflict_iff_some_year_overlap_inst :
    (['A', 'B'].Nodup ∧ 'A' ∈ ['A', 'B'] ∧ 'B' ∈ ['A', 'B'] ∧ 'A' ≠ 'B')
    ∧ ((('B' ∈ (letters_conflict_graph ['A', 'B'] exC2t exY2c).get 'A') ↔
        ∃ y, 1 ≤ y ∧ y ≤ 5 ∧ (exC2t (exY2c y 'A') ∩ exC2t (exY2c y 'B')).Nonempty)
      ∧ ((findConflictYear exC2t exY2c 'A' 'B').isSome ↔
        ∃ y, 1 ≤ y ∧ y ≤ 5 ∧ (exC2t (exY2c y 'A') ∩ exC2t (exY2c y 'B')).Nonempty)) :=
  ⟨⟨by decide, by decide, by decide, by decide⟩,
    conflict_iff_some_year_overlap ['A', 'B'] exC2t exY2c 'A' 'B'
      (by decide) (by decide) (by decide) (by decide)⟩

/-- Witness for C10 at the concrete letters A and B. -/
theorem conflict_graph_irrefl_inst :
    ['A', 'B'].Nodup ∧ ∀ L, L ∉ (letters_conflict_graph ['A', 'B'] exC2t exY2c).get L :=
  ⟨by decide, conflict_graph_irrefl ['A', 'B'] exC2t exY2c (by decide)⟩

end Organizer

namespace Organizer

theorem allPairs_all_iff_pairwise {α : Type} (l : List α) (p : α → α → Bool) :
    ((allPairs l).all (fun q => p q.1 q.2) = true) ↔ l.Pairwise (fun a b => p a b = true) := by
  induction l with
  | nil => simp [allPairs]
  | cons x xs ih =>
    show ((xs.map (fun y => (x, y))) ++ allPairs xs).all _ = true ↔ _
    rw [List.all_append, Bool.and_eq_true, List.pairwise_cons, ih]
    simp [List.all_eq_true]

/-- C2: a row is valid iff no two of its non-empty class labels (in list
position order) have intersecting teacher sets; a row with at most one
non-empty label is vacuously valid; the verdict recorded by the validator
for each (table, year) is exactly `row_ok` of that row's labels, whatever
tables are fed in, and any row containing a pair sharing a teacher is
flagged invalid. -/
theorem row_ok_iff_pairwise_disjoint (c2t : String → Finset String)
    (tables : List (Nat × List Char × (Nat → Char → String))) :
    (∀ names : List String, row_ok c2t names = true ↔
        (names.filter (fun c => c ≠ "")).Pairwise (fun a b => c2t a ∩ c2t b = ∅))
    ∧ (∀ names : List String, (names.filter (fun c => c ≠ "")).length ≤ 1 →
        row_ok c2t names = true)
    ∧ (∀ names : List String, ∀ c1 c2 : String,
        List.Sublist [c1, c2] (names.filter (fun c => c ≠ "")) → (c2t c1 ∩ c2t c2).Nonempty →
        row_ok c2t names = false)
    ∧ validate_rows tables c2t = tables.flatMap
        (fun t => (List.range' 1 5).map (fun y => (t.1, y, row_ok c2t (t.2.1.map (t.2.2 y))))) := by
  have key : ∀ names : List String, row_ok c2t names = true ↔
      (names.filter (fun c => c ≠ "")).Pairwise (fun a b => c2t a ∩ c2t b = ∅) := by
    intro names
    unfold row_ok
    rw [allPairs_all_iff_pairwise (names.filter (fun c => c ≠ ""))
      (fun a b => decide (c2t a ∩ c2t b = ∅))]
    constructor <;> exact fun h => h.imp (by simp)
  refine ⟨key, ?_, ?_, rfl⟩
  · intro names hlen
    rw [key]
    rcases hfl : names.filter (fun c => c ≠ "") with - | ⟨a, tl⟩
    · exact List.Pairwise.nil
    · rw [hfl] at hlen
      rcases tl with - | ⟨b, tl'⟩
      · simp
      · simp at hlen
  · intro names c1 c2 hsub hne
    rcases h : row_ok c2t names with - | -
    · rfl
    · exfalso
      have hpw := (key names).mp h
      have := List.pairwise_iff_forall_sublist.mp hpw hsub
      rw [this] at hne
      exact Finset.not_nonempty_empty hne

end Organizer

namespace Organizer

theorem place_join_perm (conflicts : Char → Finset Char) (m : Nat) (L : Char)
    (gs : List (List Char)) : (place conflicts m L gs).flatten.Perm (L :: gs.flatten) := by
  induction gs with
  | nil => simp [place]
  | cons g gs ih =>
    rw [place]
    split_ifs with h
    · rw [List.flatten_cons, List.flatten_cons, List.append_assoc, List.singleton_append]
      exact List.perm_middle
    · rw [List.flatten_cons, List.flatten_cons]
      exact (List.Perm.append_left g ih).trans List.perm_middle

theorem foldl_place_join_perm (conflicts : Char → Finset Char) (m : Nat)
    (ls : List Char) (gs0 : List (List Char)) :
    ((ls.foldl (fun gs L => place conflicts m L gs) gs0).flatten).Perm (ls ++ gs0.flatten) := by
  induction ls generalizing gs0 with
  | nil => simp
  | cons L ls ih =>
    rw [List.foldl_cons]
    refine (ih (place conflicts m L gs0)).trans ?_
    refine (List.Perm.append_left ls (place_join_perm conflicts m L gs0)).trans ?_
    exact List.perm_middle

theorem greedy_join_perm (letters : List Char) (conflicts : Char → Finset Char) (m : Nat) :
    (greedy_group_letters letters conflicts m).flatten.Perm letters := by
  unfold greedy_group_letters lettersSorted
  refine (foldl_place_join_perm conflicts m _ []).trans ?_
  rw [List.flatten_nil, List.append_nil]
  exact List.perm_insertionSort (degGE conflicts) letters

theorem place_sizes (conflicts : Char → Finset Char) (m : Nat) (L : Char)
    (gs : List (List Char)) (hm : 1 ≤ m)
    (h : ∀ g ∈ gs, 1 ≤ g.length ∧ g.length ≤ m) :
    ∀ g ∈ place conflicts m L gs, 1 ≤ g.length ∧ g.length ≤ m := by
  induction gs with
  | nil =>
    intro g hg
    rw [place] at hg
    rcases List.mem_singleton.mp hg with rfl
    simpa using hm
  | cons g0 gs ih =>
    intro g hg
    rw [place] at hg
    split_ifs at hg with h0
    · rcases List.mem_cons.mp hg with rfl | hg'
      · have hlen : g0.length < m :=
          of_decide_eq_true ((Bool.and_eq_true _ _).mp h0).1
        rw [List.length_append, List.length_singleton]
        omega
      · exact h g (List.mem_cons_of_mem _ hg')
    · rcases List.mem_cons.mp hg with rfl | hg'
      · exact h g (List.mem_cons_self _ _)
      · exact ih (fun g' hg'' => h g' (List.mem_cons_of_mem _ hg'')) g hg'

theorem foldl_place_sizes (conflicts : Char → Finset Char) (m : Nat)
    (ls : List Char) (gs0 : List (List Char)) (hm : 1 ≤ m)
    (h : ∀ g ∈ gs0, 1 ≤ g.length ∧ g.length ≤ m) :
    ∀ g ∈ ls.foldl (fun gs L => place conflicts m L gs) gs0, 1 ≤ g.length ∧ g.length ≤ m := by
  induction ls generalizing gs0 with
  | nil => simpa using h
  | cons L ls ih =>
    rw [List.foldl_cons]
    exact ih _ (place_sizes conflicts m L gs0 hm h)

theorem countP_eq_zero_of_join_count_zero {L : Char} (gs : List (List Char))
    (h : gs.flatten.count L = 0) : gs.countP (fun g => decide (L ∈ g)) = 0 := by
  rw [List.countP_eq_zero]
  intro g hg
  simp only [decide_eq_true_eq]
  intro hLg
  rw [List.count_eq_zero] at h
  exact h (List.mem_flatten.mpr ⟨g, hg, hLg⟩)

theorem countP_mem_of_join_count_one {L : Char} (gs : List (List Char))
    (h : gs.flatten.count L = 1) : gs.countP (fun g => decide (L ∈ g)) = 1 := by
  induction gs with
  | nil => simp at h
  | cons g gs ih =>
    rw [List.flatten_cons, List.count_append] at h
    by_cases hg : L ∈ g
    · have hpos : 0 < g.count L := List.count_pos_iff.mpr hg
      have hz : gs.flatten.count L = 0 := by omega
      rw [List.countP_cons]
      simp only [hg, decide_eq_true_eq, if_pos]
      rw [countP_eq_zero_of_join_count_zero gs hz]
    · have hz : g.count L = 0 := List.count_eq_zero.mpr hg
      rw [List.countP_cons]
      simp only [hg, decide_eq_true_eq, if_neg, if_false]
      rw [ih (by omega), Nat.add_zero]

/-- C3: for a duplicate-free letter list and a positive size bound, the
greedy grouper always returns a partition: every group has between 1 and
`max_group_size` members, the concatenation of the groups is a permutation
of the input letters (so the union is the input set, with no duplicate
within or across groups), every letter lies in some group, and each letter
lies in exactly one group.  The function is total: it never fails. -/
theorem greedy_partition (letters : List Char) (conflicts : Char → Finset Char) (m : Nat)
    (hnd : letters.Nodup) (hm : 1 ≤ m) :
    (∀ g ∈ greedy_group_letters letters conflicts m, 1 ≤ g.length ∧ g.length ≤ m)
    ∧ (greedy_group_letters letters conflicts m).flatten.Perm letters
    ∧ (greedy_group_letters letters conflicts m).flatten.Nodup
    ∧ (∀ L, L ∈ letters ↔ ∃ g ∈ greedy_group_letters letters conflicts m, L ∈ g)
    ∧ (∀ L ∈ letters,
        (greedy_group_letters letters conflicts m).countP (fun g => decide (L ∈ g)) = 1) := by
  have hperm := greedy_join_perm letters conflicts m
  refine ⟨?_, hperm, ?_, ?_, ?_⟩
  · unfold greedy_group_letters
    exact foldl_place_sizes conflicts m _ [] hm (by simp)
  · exact hperm.nodup_iff.mpr hnd
  · intro L
    exact Iff.trans hperm.mem_iff.symm List.mem_flatten
  · intro L hL
    apply countP_mem_of_join_count_one
    rw [hperm.count_eq]
    exact List.count_eq_one_of_mem hnd hL

/-- A concrete conflict mapping for the witness instances: C conflicts
with both A and B, which do not conflict with each other. -/
def exConf : Char → Finset Char :=
  fun L => if L = 'C' then {'A', 'B'} else {'C'}

/-- Witness for C3 at three concrete letters and bound 4. -/
theorem greedy_partition_inst :
    (['A', 'B', 'C'].Nodup ∧ 1 ≤ 4)
    ∧ ((∀ g ∈ greedy_group_letters ['A', 'B', 'C'] exConf 4, 1 ≤ g.length ∧ g.length ≤ 4)
      ∧ (greedy_group_letters ['A', 'B', 'C'] exConf 4).flatten.Perm ['A', 'B', 'C']
      ∧ (greedy_group_letters ['A', 'B', 'C'] exConf 4).flatten.Nodup
      ∧ (∀ L, L ∈ ['A', 'B', 'C'] ↔ ∃ g ∈ greedy_group_letters ['A', 'B', 'C'] exConf 4, L ∈ g)
      ∧ (∀ L ∈ ['A', 'B', 'C'],
          (greedy_group_letters ['A', 'B', 'C'] exConf 4).countP (fun g => decide (L ∈ g)) = 1)) :=
  ⟨⟨by decide, by decide⟩, greedy_partition ['A', 'B', 'C'] exConf 4 (by decide) (by decide)⟩

end Organizer

namespace Organizer

theorem pair_sublist_or {α : Type} {l : List α} (hnd : l.Nodup) {a b : α}
    (ha : a ∈ l) (hb : b ∈ l) (hne : a ≠ b) :
    List.Sublist [a, b] l ∨ List.Sublist [b, a] l := by
  induction l with
  | nil => cases ha
  | cons x xs ih =>
    rcases List.mem_cons.mp ha with rfl | ha'
    · have hb' : b ∈ xs := by
        rcases List.mem_cons.mp hb with rfl | hb'
        · exact absurd rfl hne
        · exact hb'
      exact Or.inl (List.Sublist.cons₂ a (List.singleton_sublist.mpr hb'))
    · rcases List.mem_cons.mp hb with rfl | hb'
      · exact Or.inr (List.Sublist.cons₂ b (List.singleton_sublist.mpr ha'))
      · rcases ih (List.nodup_cons.mp hnd).2 ha' hb' with h | h
        · exact Or.inl (List.Sublist.cons x h)
        · exact Or.inr (List.Sublist.cons x h)

theorem sublist_pair_antisymm {α : Type} {l : List α} (hnd : l.Nodup) {a b : α}
    (h1 : List.Sublist [a, b] l) (h2 : List.Sublist [b, a] l) : a = b := by
  induction l with
  | nil => cases h1
  | cons x xs ih =>
    obtain ⟨hx, hxs⟩ := List.nodup_cons.mp hnd
    cases h1 with
    | cons _ h1' =>
      cases h2 with
      | cons _ h2' => exact ih hxs h1' h2'
      | cons₂ _ h2' =>
        have hbmem : b ∈ xs := h1'.subset (by simp)
        exact absurd hbmem hx
    | cons₂ _ h1' =>
      cases h2 with
      | cons _ h2' =>
        have hamem : a ∈ xs := h2'.subset (by simp)
        exact absurd hamem hx
      | cons₂ _ h2' => rfl

/-- Modelled from the spec's words, for comparison with the code's sort:
the claimed processing order puts a strictly larger conflict count first
and breaks ties by the letters' order (the lexicographic order of the
original sorted letter list). -/
def degLexR (conflicts : Char → Finset Char) : Char → Char → Prop :=
  fun a b => (conflicts b).card < (conflicts a).card
    ∨ ((conflicts a).card = (conflicts b).card ∧ a ≤ b)

instance (conflicts : Char → Finset Char) : DecidableRel (degLexR conflicts) :=
  fun a b => inferInstanceAs (Decidable ((conflicts b).card < (conflicts a).card
    ∨ ((conflicts a).card = (conflicts b).card ∧ a ≤ b)))

instance (conflicts : Char → Finset Char) : IsTotal Char (degLexR conflicts) := by
  constructor
  intro a b
  rcases lt_trichotomy (conflicts a).card (conflicts b).card with h | h | h
  · exact Or.inr (Or.inl h)
  · rcases le_total a b with hab | hba
    · exact Or.inl (Or.inr ⟨h, hab⟩)
    · exact Or.inr (Or.inr ⟨h.symm, hba⟩)
  · exact Or.inl (Or.inl h)

instance (conflicts : Char → Finset Char) : IsTrans Char (degLexR conflicts) := by
  constructor
  intro a b c hab hbc
  rcases hab with h1 | ⟨e1, le1⟩ <;> rcases hbc with h2 | ⟨e2, le2⟩
  · exact Or.inl (lt_trans h2 h1)
  · exact Or.inl (by omega)
  · exact Or.inl (by omega)
  · exact Or.inr ⟨e1.trans e2, le_trans le1 le2⟩

instance (conflicts : Char → Finset Char) : IsAntisymm Char (degLexR conflicts) := by
  constructor
  intro a b hab hba
  rcases hab with h1 | ⟨e1, le1⟩ <;> rcases hba with h2 | ⟨e2, le2⟩
  · omega
  · omega
  · omega
  · exact le_antisymm le1 le2

instance (conflicts : Char → Finset Char) : IsTotal Char (degGE conflicts) :=
  ⟨fun a b => le_total (conflicts b).card (conflicts a).card⟩

instance (conflicts : Char → Finset Char) : IsTrans Char (degGE conflicts) :=
  ⟨fun _ _ _ hab hbc => le_trans hbc hab⟩

/-- C4: on a strictly ascending (hence duplicate-free) letter list — as the
pipeline's complete-letter list always is — the stable descending sort by
conflict count processes letters in descending conflict-count order with
the letters' order as tie-break: it coincides with sorting under the
explicit two-key comparison `degLexR`; consequently the whole grouping is
the deterministic first-fit fold over that canonical order. -/
theorem greedy_processing_order (letters : List Char) (conflicts : Char → Finset Char)
    (m : Nat) (hsorted : letters.Pairwise (· < ·)) :
    lettersSorted letters conflicts = letters.insertionSort (degLexR conflicts)
    ∧ greedy_group_letters letters conflicts m =
        (letters.insertionSort (degLexR conflicts)).foldl
          (fun gs L => place conflicts m L gs) [] := by
  have hnd : letters.Nodup := hsorted.imp ne_of_lt
  have hndS : (lettersSorted letters conflicts).Nodup :=
    (List.perm_insertionSort (degGE conflicts) letters).nodup_iff.mpr hnd
  have hsortedGE : (lettersSorted letters conflicts).Pairwise (degGE conflicts) :=
    List.sorted_insertionSort (degGE conflicts) letters
  have hpwLex : (lettersSorted letters conflicts).Pairwise (degLexR conflicts) := by
    rw [List.pairwise_iff_forall_sublist]
    intro a b hab
    have hGE : degGE conflicts a b := List.pairwise_iff_forall_sublist.mp hsortedGE hab
    have hmem_a : a ∈ letters :=
      (List.perm_insertionSort (degGE conflicts) letters).mem_iff.mp (hab.subset (by simp))
    have hmem_b : b ∈ letters :=
      (List.perm_insertionSort (degGE conflicts) letters).mem_iff.mp (hab.subset (by simp))
    have hne : a ≠ b := by
      intro h
      subst h
      exact (List.nodup_iff_sublist.mp hndS a) hab
    by_cases hlt : (conflicts b).card < (conflicts a).card
    · exact Or.inl hlt
    · have heq : (conflicts a).card = (conflicts b).card := le_antisymm (not_lt.mp hlt) hGE
      refine Or.inr ⟨heq, ?_⟩
      rcases pair_sublist_or hnd hmem_a hmem_b hne with h | h
      · exact le_of_lt (List.pairwise_iff_forall_sublist.mp hsorted h)
      · have hba : degGE conflicts b a := le_of_eq heq
        have hsub : List.Sublist [b, a] (lettersSorted letters conflicts) :=
          List.pair_sublist_insertionSort hba h
        exact absurd (sublist_pair_antisymm hndS hab hsub) hne
  have hpwLex' : (letters.insertionSort (degLexR conflicts)).Pairwise (degLexR conflicts) :=
    List.sorted_insertionSort (degLexR conflicts) letters
  have hperm : (lettersSorted letters conflicts).Perm
      (letters.insertionSort (degLexR conflicts)) :=
    (List.perm_insertionSort (degGE conflicts) letters).trans
      (List.perm_insertionSort (degLexR conflicts) letters).symm
  have hord : lettersSorted letters conflicts = letters.insertionSort (degLexR conflicts) :=
    List.eq_of_perm_of_sorted hperm hpwLex hpwLex'
  refine ⟨hord, ?_⟩
  unfold greedy_group_letters
  rw [hord]

/-- Witness for C4 at three concrete letters. -/
theorem greedy_processing_order_inst :
    ['A', 'B', 'C'].Pairwise (· < ·)
    ∧ (lettersSorted ['A', 'B', 'C'] exConf = ['A', 'B', 'C'].insertionSort (degLexR exConf)
      ∧ greedy_group_letters ['A', 'B', 'C'] exConf 4 =
          (['A', 'B', 'C'].insertionSort (degLexR exConf)).foldl
            (fun gs L => place exConf 4 L gs) []) :=
  ⟨by decide, greedy_processing_order ['A', 'B', 'C'] exConf 4 (by decide)⟩

end Organizer

namespace Organizer

/-- C6: when no letter is complete, the pipeline signals the fatal
no-complete-letters error right after building the registry and produces
no tables. -/
theorem no_complete_letters_stops (df : DataFrame) (h : complete_letters df = []) :
    processLoaded df = Except.error AppError.noCompleteLetters
    ∧ ∀ df0 : DataFrame, load_df df0 = Except.ok df →
        runPipeline df0 = Except.error AppError.noCompleteLetters := by
  have h1 : processLoaded df = Except.error AppError.noCompleteLetters := by
    unfold processLoaded
    rw [if_pos h]
  refine ⟨h1, ?_⟩
  intro df0 hload
  unfold runPipeline
  rw [hload]
  exact h1

/-- A dataframe with a teacher column and a single class column: no letter
has all five years, so no table can be built. -/
def exIncompleteDf : DataFrame := ⟨["Docente", "1A"], []⟩

/-- Witness for C6 at a dataframe with no complete letter. -/
theorem no_complete_letters_stops_inst :
    complete_letters exIncompleteDf = []
    ∧ (processLoaded exIncompleteDf = Except.error AppError.noCompleteLetters
      ∧ ∀ df0 : DataFrame, load_df df0 = Except.ok exIncompleteDf →
          runPipeline df0 = Except.error AppError.noCompleteLetters) :=
  ⟨by decide, no_complete_letters_stops exIncompleteDf (by decide)⟩

end Organizer

namespace Organizer

theorem renameDocente_mem_iff (df : DataFrame) :
    ("Docente" ∈ (renameDocente df).columns) ↔
      ∃ c ∈ df.columns, (c = "Docente" ∨ stripLowerIsDocente c = true) := by
  unfold renameDocente
  by_cases hex : "Docente" ∈ df.columns
  · rw [if_pos hex]
    exact iff_of_true hex ⟨"Docente", hex, Or.inl rfl⟩
  · rw [if_neg hex]
    rcases hf : df.columns.find? stripLowerIsDocente with - | c0
    · simp only [hf]
      constructor
      · intro h
        exact absurd h hex
      · rintro ⟨c, hc, rfl | hstrip⟩
        · exact absurd hc hex
        · exact absurd hstrip (by simpa using List.find?_eq_none.mp hf c hc)
    · simp only [hf]
      constructor
      · intro _
        exact ⟨c0, List.mem_of_find?_eq_some hf, Or.inr (List.find?_some hf)⟩
      · intro _
        refine List.mem_map.mpr ⟨c0, List.mem_of_find?_eq_some hf, ?_⟩
        rw [if_pos rfl]

theorem renameDocente_rows_value (df : DataFrame)
    (hmem : "Docente" ∈ (renameDocente df).columns) :
    ∀ r2 ∈ (renameDocente df).rows, ∃ r ∈ df.rows, ∃ c ∈ df.columns,
      (c = "Docente" ∨ stripLowerIsDocente c = true) ∧ r2 "Docente" = r c := by
  unfold renameDocente at hmem ⊢
  by_cases hex : "Docente" ∈ df.columns
  · rw [if_pos hex]
    intro r2 hr2
    exact ⟨r2, hr2, "Docente", hex, Or.inl rfl, rfl⟩
  · rw [if_neg hex] at hmem ⊢
    rcases hf : df.columns.find? stripLowerIsDocente with - | c0
    · rw [hf] at hmem
      exact absurd hmem hex
    · simp only [hf]
      intro r2 hr2
      rcases List.mem_map.mp hr2 with ⟨r, hr, rfl⟩
      refine ⟨r, hr, c0, List.mem_of_find?_eq_some hf, Or.inr (List.find?_some hf), ?_⟩
      show (if "Docente" = "Docente" then r c0 else r "Docente") = r c0
      rw [if_pos rfl]

/-- C7 (amended): loading fails with the missing-column error iff no
column name locates the teacher column — exactly, or case-insensitively
after trimming surrounding whitespace; on success, every teacher-identity
value of the loaded frame is the whitespace-trimmed value of a located
teacher column of the input. -/
theorem load_df_ok_iff_trimmed_match (df : DataFrame) :
    (load_df df = Except.error AppError.missingColumn ↔
      ¬ ∃ c ∈ df.columns, (c = "Docente" ∨ stripLowerIsDocente c = true))
    ∧ (∀ df1 : DataFrame, load_df df = Except.ok df1 →
        ∀ r1 ∈ df1.rows, ∃ r ∈ df.rows, ∃ c ∈ df.columns,
          (c = "Docente" ∨ stripLowerIsDocente c = true) ∧ r1 "Docente" = pyStrip (r c)) := by
  constructor
  · unfold load_df
    by_cases hmem : "Docente" ∈ (renameDocente df).columns
    · rw [if_pos hmem]
      exact iff_of_false (by simp) (not_not_intro ((renameDocente_mem_iff df).mp hmem))
    · rw [if_neg hmem]
      exact iff_of_true rfl (fun hex => hmem ((renameDocente_mem_iff df).mpr hex))
  · intro df1 hok r1 hr1
    unfold load_df at hok
    by_cases hmem : "Docente" ∈ (renameDocente df).columns
    · rw [if_pos hmem] at hok
      cases hok
      rcases List.mem_map.mp hr1 with ⟨r2, hr2, rfl⟩
      rcases renameDocente_rows_value df hmem r2 hr2 with ⟨r, hr, c, hc, hcp, hval⟩
      refine ⟨r, hr, c, hc, hcp, ?_⟩
      show (if "Docente" = "Docente" then pyStrip (r2 "Docente") else r2 "Docente") = pyStrip (r c)
      rw [if_pos rfl, hval]
    · rw [if_neg hmem] at hok
      cases hok

/-- The claim's locate rule as literally stated — exact name or
case-insensitive match of the name — modelled from the spec's words for
the counterexample. -/
def locatedByClaim (c : String) : Bool :=
  (c == "Docente") || (pyLower c == "docente")

/-- A frame whose only column is a whitespace-padded, uppercased teacher
header. -/
def exPaddedDf : DataFrame := ⟨[" DOCENTE "], [fun _ => "x"]⟩

/-- Counterexample to C7 as stated: loading succeeds although no column is
an exact or purely case-insensitive match of the teacher-column name,
because the code also strips whitespace before comparing. -/
theorem load_df_succeeds_beyond_claim :
    isOkB (load_df exPaddedDf) = true
    ∧ exPaddedDf.columns.all (fun c => !locatedByClaim c) = true :=
  ⟨by decide, by decide⟩

end Organizer

namespace Organizer

/-- Modelled from the spec's words for the counterexample: the exact
class-column shape, one year digit 1-5 followed by one uppercase letter,
with nothing else in the name. -/
def exactClassShape (s : String) : Bool :=
  match s.toList with
  | [d, l] => decide ('1' ≤ d ∧ d ≤ '5' ∧ 'A' ≤ l ∧ l ≤ 'Z')
  | _ => false

/-- Counterexample to C8 as stated: a whitespace-padded column name is
accepted as a valid class column although the name does not exactly match
the shape, because the code strips the name before matching. -/
theorem parse_class_accepts_padded :
    (parse_class " 1A ").isSome = true ∧ exactClassShape " 1A " = false :=
  ⟨by decide, by decide⟩

/-- C8 (amended): a column is treated as a valid class column iff its
whitespace-trimmed name exactly matches the shape (year digit 1-5 then
uppercase letter A-Z); any other column (such as "6A" or "1a") is silently
dropped: it never enters `valid_cols`, no error arises, and the
registry — hence the completeness of every letter — is a function of
`valid_cols` alone. -/
theorem parse_class_iff_trimmed_shape :
    (∀ c : String, (parse_class c).isSome = exactClassShape (pyStrip c))
    ∧ (∀ df : DataFrame, valid_cols df =
        (df.columns.filter (fun c => c ≠ "Docente")).filter (fun c => (parse_class c).isSome))
    ∧ (∀ df : DataFrame, ∀ c : String, (parse_class c).isSome = false → c ∉ valid_cols df)
    ∧ (∀ df : DataFrame, complete_letters df = completeOf (valid_cols df)
        ∧ year_letter_to_class df = yl2c (valid_cols df))
    ∧ parse_class "6A" = none ∧ parse_class "1a" = none := by
  refine ⟨?_, fun df => rfl, ?_, fun df => ⟨rfl, rfl⟩, by decide, by decide⟩
  · intro c
    unfold parse_class exactClassShape
    rcases h : (pyStrip c).toList with - | ⟨d, - | ⟨l, - | ⟨x, rest⟩⟩⟩ <;>
      simp only [h] <;> try rfl
    split_ifs with hcond
    · exact (decide_eq_true hcond).symm
    · exact (decide_eq_false hcond).symm
  · intro df c hc hmem
    unfold valid_cols at hmem
    rw [List.mem_filter] at hmem
    rw [hc] at hmem
    exact Bool.false_ne_true hmem.2

end Organizer

namespace Organizer

theorem yl2c_foldl_value_mem (cols : List String) :
    ∀ m0 : Nat × Char → Option String, ∀ yl : Nat × Char, ∀ c : String,
      (cols.foldl
        (fun m col =>
          match parse_class col with
          | some yl0 => Function.update m yl0 (some col)
          | none => m) m0) yl = some c →
      c ∈ cols ∨ m0 yl = some c := by
  induction cols with
  | nil =>
    intro m0 yl c h
    exact Or.inr h
  | cons col cols ih =>
    intro m0 yl c h
    rw [List.foldl_cons] at h
    rcases ih _ yl c h with hmem | hm0
    · exact Or.inl (List.mem_cons_of_mem _ hmem)
    · rcases hp : parse_class col with - | yl0
      · simp only [hp] at hm0
        exact Or.inr hm0
      · simp only [hp] at hm0
        by_cases hyl : yl = yl0
        · subst hyl
          rw [Function.update_same] at hm0
          cases hm0
          exact Or.inl (List.mem_cons_self _ _)
        · rw [Function.update_noteq hyl] at hm0
          exact Or.inr hm0

theorem yl2c_value_valid (cols : List String) (yl : Nat × Char) (c : String)
    (h : yl2c cols yl = some c) : c ∈ cols := by
  rcases yl2c_foldl_value_mem cols (fun _ => none) yl c h with hmem | hnone
  · exact hmem
  · cases hnone

theorem parse_class_ne_empty (c : String) (h : (parse_class c).isSome = true) : c ≠ "" := by
  rintro rfl
  exact absurd h (by decide)

theorem mem_of_mem_enum {α : Type} (l : List α) (p : Nat × α) (hp : p ∈ l.enum) : p.2 ∈ l := by
  have h := List.mem_enum_iff_getElem?.mp hp
  exact List.getElem?_mem h

/-- C9: as long as every letter of every group is complete, every cell of
every assembled table comes from the (year, letter) to class-label map:
the label is present for each year 1..5, the cell equals it, and it is
never the defensive empty value. -/
theorem complete_group_cells_present (df : DataFrame) (groups : List (List Char))
    (hg : ∀ g ∈ groups, ∀ L ∈ g, L ∈ complete_letters df) :
    ∀ t ∈ build_tables groups (year_letter_to_class df), ∀ L ∈ t.2.1,
      ∀ y : Nat, 1 ≤ y → y ≤ 5 →
        ∃ c : String, year_letter_to_class df (y, L) = some c
          ∧ t.2.2 y L = c ∧ c ≠ "" := by
  intro t ht L hL y hy1 hy5
  unfold build_tables at ht
  rcases List.mem_map.mp ht with ⟨p, hp, rfl⟩
  have hgmem : p.2 ∈ groups := mem_of_mem_enum groups p hp
  have hcomp : L ∈ complete_letters df := hg p.2 hgmem L hL
  unfold complete_letters completeOf at hcomp
  rw [List.mem_filter] at hcomp
  have hall := hcomp.2
  unfold isComplete at hall
  rw [List.all_eq_true] at hall
  have hy : y ∈ List.range' 1 5 := List.mem_range'.mpr ⟨y - 1, by omega, by omega⟩
  have hsome := hall y hy
  rcases Option.isSome_iff_exists.mp hsome with ⟨c, hc⟩
  refine ⟨c, hc, ?_, ?_⟩
  · show (year_letter_to_class df (y, L)).getD "" = c
    rw [show year_letter_to_class df (y, L) = some c from hc]
    rfl
  · have hcv : c ∈ valid_cols df := yl2c_value_valid (valid_cols df) (y, L) c hc
    unfold valid_cols at hcv
    exact parse_class_ne_empty c (List.mem_filter.mp hcv).2

/-- A dataframe in which letter A is complete over all five years. -/
def exCompleteDf : DataFrame :=
  ⟨["Docente", "1A", "2A", "3A", "4A", "5A"],
   [fun c => if c = "Docente" then "T" else "x"]⟩

/-- Witness for C9 at a concrete complete dataframe and the group made of
its single complete letter. -/
theorem complete_group_cells_present_inst :
    (∀ g ∈ [['A']], ∀ L ∈ g, L ∈ complete_letters exCompleteDf)
    ∧ (∀ t ∈ build_tables [['A']] (year_letter_to_class exCompleteDf), ∀ L ∈ t.2.1,
        ∀ y : Nat, 1 ≤ y → y ≤ 5 →
          ∃ c : String, year_letter_to_class exCompleteDf (y, L) = some c
            ∧ t.2.2 y L = c ∧ c ≠ "") :=
  ⟨by decide, complete_group_cells_present exCompleteDf [['A']] (by decide)⟩

end Organizer
